import Mathlib

/-!
Verification of the `fuzzy_logic` Rust crate (files `set.rs`, `rules.rs`,
`inference.rs`, `functions.rs`) against its natural-language specification.

The Rust code is shallowly embedded in Lean:

* `f32` values are modelled by `FuzzyLogic.F`: an exact rational together with
  the three IEEE special values `nan`, `inf`, `ninf` that the code can produce
  (`0.0/0.0` in `triangular` and in `center_of_mass`).  All concrete numbers
  appearing in the theorems below are exactly representable in `f32` and every
  NaN-producing path is rounding-independent, so exact rational arithmetic is
  faithful for every statement proved here.  Negative zero is not modelled;
  no statement below depends on it.
* Rust `HashMap`s are modelled by association lists with the usual
  lookup/insert/erase operations (`lookupKV`, `updateKV`, `eraseKV`).
  `ordered_float::OrderedFloat` gives `f32` keys a total equality in which
  `NaN = NaN`; this matches decidable equality on `F`.
* A Rust panic (from `panic!`, `unreachable!`, `Vec`/`HashMap` indexing or
  `Option::expect`) is modelled by `RustOutcome.crash msg`: the thread unwinds
  with message `msg` and no value is returned to the caller.  `RustOutcome.ok`
  models normal return.
* Interior mutability (the memoizing cache mutated during evaluation) is
  modelled by explicit state passing: evaluation returns the updated
  universe registry next to its value.
-/

namespace FuzzyLogic

/-- Model of `f32`: exact rationals plus the IEEE special values the code can
produce.  Negative zero is not modelled (no proved statement depends on it). -/
inductive F where
  | num (q : Rat)
  | nan
  | inf
  | ninf
deriving DecidableEq

/-- IEEE `<=` on modelled floats: any comparison with NaN is `false`. -/
def F.le : F → F → Bool
  | .nan, _ => false
  | _, .nan => false
  | .ninf, _ => true
  | _, .inf => true
  | .inf, _ => false
  | _, .ninf => false
  | .num a, .num b => decide (a ≤ b)

/-- IEEE addition on modelled floats. -/
def F.add : F → F → F
  | .nan, _ => .nan
  | _, .nan => .nan
  | .inf, .ninf => .nan
  | .ninf, .inf => .nan
  | .inf, _ => .inf
  | _, .inf => .inf
  | .ninf, _ => .ninf
  | _, .ninf => .ninf
  | .num a, .num b => .num (a + b)

/-- IEEE negation on modelled floats. -/
def F.neg : F → F
  | .nan => .nan
  | .inf => .ninf
  | .ninf => .inf
  | .num a => .num (-a)

/-- IEEE subtraction on modelled floats. -/
def F.sub (x y : F) : F := F.add x (F.neg y)

/-- IEEE multiplication on modelled floats (`0 * inf = NaN`). -/
def F.mul : F → F → F
  | .nan, _ => .nan
  | _, .nan => .nan
  | .inf, .inf => .inf
  | .inf, .ninf => .ninf
  | .ninf, .inf => .ninf
  | .ninf, .ninf => .inf
  | .inf, .num b => if 0 < b then .inf else if b < 0 then .ninf else .nan
  | .num a, .inf => if 0 < a then .inf else if a < 0 then .ninf else .nan
  | .ninf, .num b => if 0 < b then .ninf else if b < 0 then .inf else .nan
  | .num a, .ninf => if 0 < a then .ninf else if a < 0 then .inf else .nan
  | .num a, .num b => .num (a * b)

/-- IEEE division on modelled floats; in particular `0/0 = NaN`.  The sign of
a zero divisor is not modelled (only the `0/0` case is ever exercised). -/
def F.div : F → F → F
  | .nan, _ => .nan
  | _, .nan => .nan
  | .inf, .inf => .nan
  | .inf, .ninf => .nan
  | .ninf, .inf => .nan
  | .ninf, .ninf => .nan
  | .inf, .num b => if b < 0 then .ninf else .inf
  | .ninf, .num b => if b < 0 then .inf else .ninf
  | .num _, .inf => .num 0
  | .num _, .ninf => .num 0
  | .num a, .num b =>
    if b = 0 then (if a = 0 then .nan else if 0 < a then .inf else .ninf)
    else .num (a / b)

/-- Outcome of running a piece of Rust code: either a normal return or a panic
(`crash msg`), which unwinds and terminates the thread instead of handing the
caller a value. -/
inductive RustOutcome (α : Type) where
  | ok (a : α)
  | crash (msg : String)
deriving DecidableEq

/-- `HashMap::get` on an association list. -/
def lookupKV {κ β : Type} [DecidableEq κ] (k : κ) : List (κ × β) → Option β
  | [] => none
  | (k', v) :: t => if k = k' then some v else lookupKV k t

/-- `HashMap::insert` on an association list: replace the binding of `k` if
present, otherwise append a new binding. -/
def updateKV {κ β : Type} [DecidableEq κ] (k : κ) (v : β) : List (κ × β) → List (κ × β)
  | [] => [(k, v)]
  | (k', v') :: t => if k = k' then (k, v) :: t else (k', v') :: updateKV k v t

/-- `HashMap::remove` on an association list: drop the binding of `k`. -/
def eraseKV {κ β : Type} [DecidableEq κ] (k : κ) : List (κ × β) → List (κ × β)
  | [] => []
  | (k', v') :: t => if k = k' then t else (k', v') :: eraseKV k t

/-- Number of bindings of key `k` in an association list. -/
def countKV {κ β : Type} [DecidableEq κ] (k : κ) : List (κ × β) → Nat
  | [] => 0
  | (k', _) :: t => (if k = k' then 1 else 0) + countKV k t

/-- `set.rs`: `pub struct Set` — a named fuzzy set with an optional membership
function and a memoizing cache from `OrderedFloat<f32>` keys to degrees. -/
structure Set where
  name : String
  membership : Option (F → F)
  cache : List (F × F)

/-- `Set::new_with_mem`. -/
def Set.new_with_mem (name : String) (membership : F → F) : Set :=
  ⟨name, some membership, []⟩

/-- `Set::new_with_domain`. -/
def Set.new_with_domain (name : String) (cache : List (F × F)) : Set :=
  ⟨name, none, cache⟩

/-- `Set::new_empty`. -/
def Set.new_empty : Set := Set.new_with_domain "Empty" []

/-- `Set::check`.  The source reads
`self.cache.entry(ordered).or_insert(match func { Some(f) => f(x), None => unreachable!() })`:
`or_insert` takes its argument *by value*, so the `match` — and hence `f(x)`,
or the `unreachable!()` panic when there is no membership function — is
evaluated eagerly on *every* call, hit or miss.  The returned `Bool` is a
ghost observable recording whether the membership function was evaluated
during this call; on every non-panicking run it is `true`, precisely because
of the eager argument.  After reading the (cached or fresh) degree, an entry
whose degree is `≤ 0` is removed. -/
def Set.check (s : Set) (x : F) : RustOutcome (F × Bool × Set) :=
  match s.membership with
  | none => .crash "internal error: entered unreachable code"
  | some f =>
    let computed := f x
    let step : F × List (F × F) :=
      match lookupKV x s.cache with
      | some v => (v, s.cache)
      | none => (computed, updateKV x computed s.cache)
    let cache2 := if F.le step.1 (F.num 0) then eraseKV x step.2 else step.2
    .ok (step.1, true, { s with cache := cache2 })

/-- `set.rs`: `pub struct UniversalSet` — a named registry of fuzzy sets with
an advisory domain. -/
structure UniversalSet where
  name : String
  domain : List F
  sets : List (String × Set)

/-- The mutable universe registry (`HashMap<String, UniversalSet>`). -/
def Universes : Type := List (String × UniversalSet)

/-- `inference.rs`: `InferenceOptions` — the pluggable operator tables.  The
boxed trait objects / function objects are modelled as plain functions. -/
structure InferenceOptions where
  logicAnd : F → F → F
  logicOr : F → F → F
  logicNot : F → F
  setUnion : Set → Set → Set
  defuzzFunc : Set → F

/-- `rules.rs`: the four expression node kinds (`Is`, generic `And`/`Or`,
`Not`) as one closed tree type.  Heterogeneous generic instantiations all
erase to this shape. -/
inductive Expr where
  | is (var set : String)
  | and (l r : Expr)
  | or (l r : Expr)
  | not (e : Expr)
deriving DecidableEq

/-- `Expression::eval` with the cache side effect made explicit: the updated
universe registry is returned next to the degree.

`Is::eval`: `context.values[&self.variable]` panics with Rust's `HashMap`
index message when the variable is absent; the universe and set lookups use
`.expect(&format!("{} is not exists", ...))`.  `check` then memoizes into the
set's cache.  `And`/`Or` evaluate both children left-to-right (no
short-circuit; a panic in the left child unwinds before the right child
runs), `Not` evaluates its child; all three then apply the operator table. -/
def Expr.eval (ops : InferenceOptions) (vals : List (String × F)) :
    Expr → Universes → RustOutcome (F × Universes)
  | .is var set, u =>
    match lookupKV var vals with
    | none => .crash "no entry found for key"
    | some value =>
      match lookupKV var u with
      | none => .crash (var ++ " is not exists")
      | some uni =>
        match lookupKV set uni.sets with
        | none => .crash (set ++ " is not exists")
        | some s =>
          match s.check value with
          | .crash msg => .crash msg
          | .ok (mem, _, s') =>
            .ok (mem, updateKV var { uni with sets := updateKV set s' uni.sets } u)
  | .and l r, u =>
    match l.eval ops vals u with
    | .crash msg => .crash msg
    | .ok (dl, u1) =>
      match r.eval ops vals u1 with
      | .crash msg => .crash msg
      | .ok (dr, u2) => .ok (ops.logicAnd dl dr, u2)
  | .or l r, u =>
    match l.eval ops vals u with
    | .crash msg => .crash msg
    | .ok (dl, u1) =>
      match r.eval ops vals u1 with
      | .crash msg => .crash msg
      | .ok (dr, u2) => .ok (ops.logicOr dl dr, u2)
  | .not e, u =>
    match e.eval ops vals u with
    | .crash msg => .crash msg
    | .ok (d, u1) => .ok (ops.logicNot d, u1)

/-- Variables occurring in `Is` leaves of an expression; `Is::eval` touches
exactly the universes bearing these names. -/
def Expr.vars : Expr → List String
  | .is var _ => [var]
  | .and l r => l.vars ++ r.vars
  | .or l r => l.vars ++ r.vars
  | .not e => e.vars

/-- Cache-free denotation of an expression: like `Expr.eval` but reading the
membership function directly instead of going through the memoizing cache.
Used to state that, on consistent caches, evaluation returns the same degree
no matter how full the caches are. -/
def Expr.evalD (ops : InferenceOptions) (vals : List (String × F)) :
    Expr → Universes → RustOutcome F
  | .is var set, u =>
    match lookupKV var vals with
    | none => .crash "no entry found for key"
    | some value =>
      match lookupKV var u with
      | none => .crash (var ++ " is not exists")
      | some uni =>
        match lookupKV set uni.sets with
        | none => .crash (set ++ " is not exists")
        | some s =>
          match s.membership with
          | none => .crash "internal error: entered unreachable code"
          | some f => .ok (f value)
  | .and l r, u =>
    match l.evalD ops vals u with
    | .crash msg => .crash msg
    | .ok dl =>
      match r.evalD ops vals u with
      | .crash msg => .crash msg
      | .ok dr => .ok (ops.logicAnd dl dr)
  | .or l r, u =>
    match l.evalD ops vals u with
    | .crash msg => .crash msg
    | .ok dl =>
      match r.evalD ops vals u with
      | .crash msg => .crash msg
      | .ok dr => .ok (ops.logicOr dl dr)
  | .not e, u =>
    match e.evalD ops vals u with
    | .crash msg => .crash msg
    | .ok d => .ok (ops.logicNot d)

/-- `rules.rs`: `pub struct Rule`. -/
structure Rule where
  condition : Expr
  result_set : String
  result_universe : String
deriving DecidableEq

/-- `Rule::compute`: evaluate the condition, look up the target universe and
set (panicking with `"... is not exists"` on a miss, as in the source), then
build a brand-new membership-function-free set named
`"<universe>: <set>"` whose cache keeps exactly the target-cache entries
whose degree is `<= expression_result` — a filter, not a min-clip. -/
def Rule.compute (r : Rule) (ops : InferenceOptions) (vals : List (String × F))
    (u : Universes) : RustOutcome (Set × Universes) :=
  match r.condition.eval ops vals u with
  | .crash msg => .crash msg
  | .ok (expression_result, u') =>
    match lookupKV r.result_universe u' with
    | none => .crash (r.result_universe ++ " is not exists")
    | some uni =>
      match lookupKV r.result_set uni.sets with
      | none => .crash (r.result_set ++ " is not exists")
      | some s =>
        .ok (Set.new_with_domain (r.result_universe ++ ": " ++ r.result_set)
               (s.cache.filter (fun kv => F.le kv.2 expression_result)), u')

/-- `rules.rs`: `pub struct RuleSet`. -/
structure RuleSet where
  rules : List Rule

/-- Loop body of `RuleSet::new`: first rule whose `result_universe` differs
from the first rule's (the loop also visits the first rule, which trivially
matches itself). -/
def firstConflict (u0 : String) : List Rule → Option String
  | [] => none
  | r :: t => if r.result_universe = u0 then firstConflict u0 t else some r.result_universe

/-- `RuleSet::new`: `rules[0]` panics with the Rust slice-index message on an
empty list; otherwise any rule targeting a different universe than the first
yields `Err` naming both, and otherwise the rule set is built. -/
def RuleSet.new : List Rule → RustOutcome (Except String RuleSet)
  | [] => .crash "index out of bounds: the len is 0 but the index is 0"
  | r0 :: rest =>
    match firstConflict r0.result_universe (r0 :: rest) with
    | some u =>
      .ok (.error ("Rules are in different result universes(" ++ r0.result_universe
        ++ " and " ++ u ++ ")"))
    | none => .ok (.ok ⟨r0 :: rest⟩)

/-- Fold of `RuleSet::compute_all` over the rules after the first: each new
rule result is combined into the accumulator with the `union` operator. -/
def computeAllGo (ops : InferenceOptions) (vals : List (String × F)) :
    List Rule → Set → Universes → RustOutcome (Set × Universes)
  | [], acc, u => .ok (acc, u)
  | r :: t, acc, u =>
    match r.compute ops vals u with
    | .crash msg => .crash msg
    | .ok (res, u') => computeAllGo ops vals t (ops.setUnion acc res) u'

/-- `RuleSet::compute_all`: compute `rules[0]` (panicking with the slice-index
message if the rule list is empty), then fold the remaining rules
left-to-right via `union`. -/
def RuleSet.computeAll (rs : RuleSet) (ops : InferenceOptions)
    (vals : List (String × F)) (u : Universes) : RustOutcome (Set × Universes) :=
  match rs.rules with
  | [] => .crash "index out of bounds: the len is 0 but the index is 0"
  | r0 :: rest =>
    match r0.compute ops vals u with
    | .crash msg => .crash msg
    | .ok (acc, u1) => computeAllGo ops vals rest acc u1

/-- `inference.rs`: `pub struct InferenceMachine`. -/
structure InferenceMachine where
  rules : RuleSet
  universes : Universes
  values : List (String × F)
  options : InferenceOptions

/-- `InferenceMachine::new`: moves its arguments in and starts with an empty
input-value snapshot. -/
def InferenceMachine.new (rules : RuleSet) (universes : Universes)
    (options : InferenceOptions) : InferenceMachine :=
  ⟨rules, universes, [], options⟩

/-- `InferenceMachine::update`: wholesale replacement (a clone) of the input
snapshot. -/
def InferenceMachine.update (m : InferenceMachine) (values : List (String × F)) :
    InferenceMachine :=
  { m with values := values }

/-- `InferenceMachine::compute`: run the rule set on a context built from the
current state, then return the aggregated set's name together with its
defuzzification.  The cache growth performed by evaluation is kept in the
returned machine. -/
def InferenceMachine.compute (m : InferenceMachine) :
    RustOutcome ((String × F) × InferenceMachine) :=
  match m.rules.computeAll m.options m.values m.universes with
  | .crash msg => .crash msg
  | .ok (result, u') =>
    .ok ((result.name, m.options.defuzzFunc result), { m with universes := u' })

/-- The caller-visible part of `InferenceMachine::compute`: the
`(label, crisp value)` pair without the post-call machine state. -/
def computeVal (m : InferenceMachine) : RustOutcome (String × F) :=
  match m.compute with
  | .crash msg => .crash msg
  | .ok (p, _) => .ok p

/-- The machine state left behind by `InferenceMachine::compute` (the machine
itself if the call panicked). -/
def computeNext (m : InferenceMachine) : InferenceMachine :=
  match m.compute with
  | .crash _ => m
  | .ok (_, m') => m'

/-- `functions.rs`: `MembershipFactory::triangular`.  Note that both branch
guards are inclusive, so at `x = a = b` the first branch runs and divides
`0.0` by `0.0`. -/
def triangular (a b c : F) : F → F := fun x =>
  if F.le a x && F.le x b then F.sub (F.num 1) (F.div (F.sub b x) (F.sub b a))
  else if F.le b x && F.le x c then F.sub (F.num 1) (F.div (F.sub x b) (F.sub c b))
  else F.num 0

/-- `functions.rs`: `DefuzzFactory::center_of_mass` — degree-weighted mean of
the cached keys; on an empty cache both folds return `0.0` and the final
division is `0.0 / 0.0`. -/
def centerOfMass (s : Set) : F :=
  let sum := s.cache.foldl (fun acc kv => F.add acc kv.2) (F.num 0)
  let prodSum := s.cache.foldl (fun acc kv => F.add acc (F.mul kv.1 kv.2)) (F.num 0)
  F.div prodSum sum

/-- A memo cache is consistent when every entry records the membership
function's value at its key and only strictly positive degrees are retained —
the invariant `check` establishes and maintains. -/
def Set.consistent (s : Set) : Prop :=
  ∀ f, s.membership = some f →
    ∀ x v, lookupKV x s.cache = some v → v = f x ∧ F.le v (F.num 0) = false

/-- Every fuzzy set reachable through the registry has a consistent cache. -/
def consistentU (u : Universes) : Prop :=
  ∀ n uni, lookupKV n u = some uni →
    ∀ sn s, lookupKV sn uni.sets = some s → s.consistent

/-- Two sets with the same membership function (caches may differ). -/
def Set.memEq (s t : Set) : Prop := s.membership = t.membership

/-- Lift a relation to `Option`, requiring the two sides to be defined
together. -/
def OptRel {α β : Type} (R : α → β → Prop) : Option α → Option β → Prop
  | some a, some b => R a b
  | none, none => True
  | _, _ => False

/-- Two universes exposing the same set names with the same membership
functions; only the caches may differ. -/
def UniverseShapeEq (u v : UniversalSet) : Prop :=
  ∀ sn, OptRel Set.memEq (lookupKV sn u.sets) (lookupKV sn v.sets)

/-- Two registries exposing the same universe names, set names and membership
functions; evaluation can change caches but never this shape. -/
def shapeEqU (u v : Universes) : Prop :=
  ∀ n, OptRel UniverseShapeEq (lookupKV n u) (lookupKV n v)

/-- Registry states reachable from `u0` by cache memoization on universes
other than `ru`: consistent, same shape as `u0`, and with the `ru` entry
untouched. -/
def goodU (u0 : Universes) (ru : String) (u : Universes) : Prop :=
  consistentU u ∧ shapeEqU u0 u ∧ lookupKV ru u = lookupKV ru u0

/-! ### Concrete operator tables, sets and machines used by witnesses and
counterexamples -/

/-- Projection of `check`: the returned degree. -/
def checkDegree (s : Set) (x : F) : Option F :=
  match s.check x with
  | .ok (d, _, _) => some d
  | .crash _ => none

/-- Projection of `check`: whether the membership function was evaluated
during the call. -/
def checkInvoked (s : Set) (x : F) : Option Bool :=
  match s.check x with
  | .ok (_, b, _) => some b
  | .crash _ => none

/-- Projection of `check`: the post-call set. -/
def checkNext (s : Set) (x : F) : Set :=
  match s.check x with
  | .ok (_, _, s') => s'
  | .crash _ => s

/-- The cache of the aggregated set produced by `compute_all`, if it returns. -/
def aggregateCache (rs : RuleSet) (ops : InferenceOptions) (vals : List (String × F))
    (u : Universes) : Option (List (F × F)) :=
  match rs.computeAll ops vals u with
  | .ok (res, _) => some res.cache
  | .crash _ => none

/-- Every cache in the registry is empty (e.g. in a freshly configured
machine). -/
def allCachesEmpty (u : Universes) : Bool :=
  u.all fun p => p.2.sets.all fun q => q.2.cache.isEmpty

/-- A throwaway operator table for scenarios whose operators are never
consulted. -/
def opsTrivial : InferenceOptions :=
  ⟨fun a _ => a, fun a _ => a, fun a => a, fun a _ => a, fun _ => F.num 0⟩

/-- A concrete set-union: right cache merged into the left cache, left name
kept. -/
def unionMerge : Set → Set → Set := fun a b =>
  ⟨a.name, none, b.cache.foldl (fun acc kv => updateKV kv.1 kv.2 acc) a.cache⟩

/-- Operator table whose defuzzifier counts cache entries — enough to observe
aggregate caches changing between cycles. -/
def opsCount : InferenceOptions :=
  ⟨fun a _ => a, fun a _ => a, fun a => a, unionMerge, fun s => F.num (mkRat s.cache.length 1)⟩

/-- min/max/complement logic with the center-of-mass defuzzifier. -/
def opsCenterOfMass : InferenceOptions :=
  ⟨fun a b => if F.le a b then a else b, fun a b => if F.le a b then b else a,
   fun a => F.sub (F.num 1) a, unionMerge, centerOfMass⟩

/-- Universe `temp` of the spec's end-to-end scenario. -/
def tempUniverse : UniversalSet :=
  ⟨"temp", [],
   [("cold", Set.new_with_mem "cold" (triangular (F.num (-20)) (F.num (-20)) (F.num 10))),
    ("hot", Set.new_with_mem "hot" (triangular (F.num 10) (F.num 40) (F.num 40)))]⟩

/-- Universe `action` of the spec's end-to-end scenario. -/
def actionUniverse : UniversalSet :=
  ⟨"action", [], [("low", Set.new_with_mem "low" (triangular (F.num 0) (F.num 0) (F.num 50)))]⟩

/-- The rule `if temp is cold then action is low`. -/
def c6Rule : Rule := ⟨Expr.is "temp" "cold", "low", "action"⟩

/-- The spec's end-to-end machine after `update({temp: -15})`. -/
def c6Machine : InferenceMachine :=
  (InferenceMachine.new ⟨[c6Rule]⟩ [("temp", tempUniverse), ("action", actionUniverse)]
    opsCenterOfMass).update [("temp", F.num (-15))]

/-- A machine whose single rule references variable `x` while the registry is
empty: the universe lookup inside `Is::eval` misses. -/
def c1Machine : InferenceMachine :=
  (InferenceMachine.new ⟨[⟨Expr.is "x" "s", "t", "out"⟩]⟩ [] opsTrivial).update
    [("x", F.num 0)]

/-- Universe for the missing-set scenario: `x` exists but holds no sets. -/
def c1uEmptySets : Universes := [("x", ⟨"x", [], []⟩)]

/-- Registry with `x/s` present but no `out` universe: `Rule::compute`'s
target-universe lookup misses. -/
def c1uNoTarget : Universes :=
  [("x", ⟨"x", [], [("s", Set.new_with_mem "s" (fun _ => F.num 1))]⟩)]

/-- Registry with `x/s` and an `out` universe that lacks the target set. -/
def c1uNoTargetSet : Universes :=
  [("x", ⟨"x", [], [("s", Set.new_with_mem "s" (fun _ => F.num 1))]⟩),
   ("out", ⟨"out", [], []⟩)]

/-- Rule used by the target-lookup-miss scenarios. -/
def c1Rule : Rule := ⟨Expr.is "x" "s", "t", "out"⟩

/-- Registry for the `Rule::compute` filter scenario: input universe `u`
with set `a`, result universe `out` whose set `t` has two cached entries. -/
def c2u : Universes :=
  [("u", ⟨"u", [], [("a", Set.new_with_mem "a" (fun _ => F.num 1))]⟩),
   ("out", ⟨"out", [],
     [("t", ⟨"t", some (fun _ => F.num 1),
       [(F.num 3, F.num (1/2)), (F.num 4, F.num 2)]⟩)]⟩)]

/-- Rule `if u is a then out t`. -/
def c2Rule : Rule := ⟨Expr.is "u" "a", "t", "out"⟩

/-- Registry state after evaluating `c2Rule`'s condition on `c2u`. -/
def c2u2 : Universes :=
  match Expr.eval opsTrivial [("u", F.num 0)] c2Rule.condition c2u with
  | .ok (_, w) => w
  | .crash _ => c2u

/-- The `out` universe as found after that evaluation. -/
def c2uni : UniversalSet :=
  match lookupKV "out" c2u2 with
  | some uni => uni
  | none => ⟨"out", [], []⟩

/-- The target set `t` as found after that evaluation. -/
def c2tset : Set :=
  match lookupKV "t" c2uni.sets with
  | some s => s
  | none => Set.new_empty

/-- A fuzzy set with a constant membership function and an empty cache. -/
def c4Set : Set := Set.new_with_mem "s" (fun _ => F.num 1)

/-- `c4Set` after one `check(0)` call: the degree `1` is now cached. -/
def c4Set1 : Set := checkNext c4Set (F.num 0)

/-- A rule-output snapshot: no membership function, one cached entry. -/
def c5Set : Set := Set.new_with_domain "snap" [(F.num 1, F.num (1/2))]

/-- Input universe for the frame-property scenario. -/
def c9uIn : UniversalSet := ⟨"u", [], [("a", Set.new_with_mem "a" (fun _ => F.num 1))]⟩

/-- Output universe for the frame-property scenario; `t`'s cache is
pre-populated. -/
def c9uOut : UniversalSet :=
  ⟨"out", [], [("t", ⟨"t", some (fun _ => F.num 1), [(F.num 2, F.num (1/2))]⟩)]⟩

/-- Registry for the frame-property scenario. -/
def c9u : Universes := [("u", c9uIn), ("out", c9uOut)]

/-- Rule `if u is a then out t` for the frame-property scenario. -/
def c9Rule : Rule := ⟨Expr.is "u" "a", "t", "out"⟩

/-- Result set of `c9Rule.compute` on `c9u`. -/
def c9res : Set :=
  match c9Rule.compute opsTrivial [("u", F.num 0)] c9u with
  | .ok (res, _) => res
  | .crash _ => Set.new_empty

/-- Post-call registry of `c9Rule.compute` on `c9u`. -/
def c9u2 : Universes :=
  match c9Rule.compute opsTrivial [("u", F.num 0)] c9u with
  | .ok (_, w) => w
  | .crash _ => c9u

/-- Input universe `u` for the repeated-cycle counterexample. -/
def c7uU : UniversalSet := ⟨"u", [], [("a", Set.new_with_mem "a" (fun _ => F.num 1))]⟩

/-- Output universe `out` with sets `t` and `t2` for the repeated-cycle
counterexample. -/
def c7outU : UniversalSet :=
  ⟨"out", [], [("t", Set.new_with_mem "t" (fun _ => F.num (1/2))),
               ("t2", Set.new_with_mem "t2" (fun _ => F.num 1))]⟩

/-- Rule `if u is a then out t`. -/
def c7r1 : Rule := ⟨Expr.is "u" "a", "t", "out"⟩

/-- Rule `if out is t then out t2`: its condition populates the cache of the
previous rule's target set. -/
def c7r2 : Rule := ⟨Expr.is "out" "t", "t2", "out"⟩

/-- Machine whose second rule's condition references the result universe:
cycle 1 populates `out/t`'s cache after rule 1 has already read it. -/
def c7Machine : InferenceMachine :=
  (InferenceMachine.new ⟨[c7r1, c7r2]⟩ [("u", c7uU), ("out", c7outU)] opsCount).update
    [("u", F.num 0), ("out", F.num 0)]

/-- `c7Machine` after one `compute()` cycle. -/
def c7Machine1 : InferenceMachine := computeNext c7Machine

/-- A machine meeting the amended idempotence hypotheses: its only rule's
condition never references the result universe `out`. -/
def c7wMachine : InferenceMachine :=
  (InferenceMachine.new ⟨[c7r1]⟩ [("u", c7uU), ("out", c7outU)] opsCount).update
    [("u", F.num 0)]

/-- `c7wMachine` after one `compute()` cycle. -/
def c7wMachine1 : InferenceMachine := computeNext c7wMachine

/-- A fresh machine (no `update` yet) over the end-to-end configuration. -/
def c10Machine : InferenceMachine :=
  InferenceMachine.new ⟨[c6Rule]⟩ [("temp", tempUniverse), ("action", actionUniverse)]
    opsTrivial

/-- Registry state after evaluating `c1Rule`'s condition on `c1uNoTarget`. -/
def c1uNoTarget2 : Universes :=
  match Expr.eval opsTrivial [("x", F.num 0)] c1Rule.condition c1uNoTarget with
  | .ok (_, w) => w
  | .crash _ => c1uNoTarget

/-- Registry state after evaluating `c1Rule`'s condition on `c1uNoTargetSet`. -/
def c1uNoTargetSet2 : Universes :=
  match Expr.eval opsTrivial [("x", F.num 0)] c1Rule.condition c1uNoTargetSet with
  | .ok (_, w) => w
  | .crash _ => c1uNoTargetSet

/-- A rule targeting a different universe than `c7r1`. -/
def c3OtherRule : Rule := ⟨Expr.is "x" "y", "s", "other"⟩

/-! ### Association-list lemmas -/

theorem lookupKV_updateKV_self {κ β : Type} [DecidableEq κ] (k : κ) (v : β)
    (l : List (κ × β)) : lookupKV k (updateKV k v l) = some v := by
  induction l with
  | nil => simp [lookupKV, updateKV]
  | cons hd t ih =>
    obtain ⟨k', v'⟩ := hd
    by_cases h : k = k' <;> simp [lookupKV, updateKV, h, ih]

theorem lookupKV_updateKV_ne {κ β : Type} [DecidableEq κ] {n k : κ} (v : β)
    (l : List (κ × β)) (h : n ≠ k) :
    lookupKV n (updateKV k v l) = lookupKV n l := by
  induction l with
  | nil => simp [lookupKV, updateKV, h]
  | cons hd t ih =>
    obtain ⟨k', v'⟩ := hd
    by_cases hk : k = k'
    · subst hk
      simp [lookupKV, updateKV, h]
    · by_cases hn : n = k' <;> simp [lookupKV, updateKV, hk, hn, ih]

theorem updateKV_lookup_self {κ β : Type} [DecidableEq κ] {k : κ} {v : β}
    {l : List (κ × β)} (h : lookupKV k l = some v) : updateKV k v l = l := by
  induction l with
  | nil => simp [lookupKV] at h
  | cons hd t ih =>
    obtain ⟨k', v'⟩ := hd
    by_cases hk : k = k'
    · subst hk
      simp [lookupKV] at h
      simp [updateKV, h]
    · simp [lookupKV, hk] at h
      simp [updateKV, hk, ih h]

theorem eraseKV_updateKV_absent {κ β : Type} [DecidableEq κ] {k : κ} (v : β)
    {l : List (κ × β)} (h : lookupKV k l = none) :
    eraseKV k (updateKV k v l) = l := by
  induction l with
  | nil => simp [updateKV, eraseKV]
  | cons hd t ih =>
    obtain ⟨k', v'⟩ := hd
    by_cases hk : k = k'
    · simp [lookupKV, hk] at h
    · simp [lookupKV, hk] at h
      simp [updateKV, eraseKV, hk, ih h]

theorem lookupKV_updateKV_cases {κ β : Type} [DecidableEq κ] {n k : κ} {v w : β}
    {l : List (κ × β)} (h : lookupKV n (updateKV k v l) = some w) :
    (n = k ∧ w = v) ∨ lookupKV n l = some w := by
  by_cases hn : n = k
  · subst hn
    rw [lookupKV_updateKV_self] at h
    exact Or.inl ⟨rfl, by injection h with h; exact h.symm⟩
  · rw [lookupKV_updateKV_ne v l hn] at h
    exact Or.inr h

theorem countKV_eq_zero {κ β : Type} [DecidableEq κ] {k : κ} {l : List (κ × β)}
    (h : lookupKV k l = none) : countKV k l = 0 := by
  induction l with
  | nil => simp [countKV]
  | cons hd t ih =>
    obtain ⟨k', v'⟩ := hd
    by_cases hk : k = k'
    · simp [lookupKV, hk] at h
    · simp [lookupKV, hk] at h
      simp [countKV, hk, ih h]

theorem countKV_updateKV_absent {κ β : Type} [DecidableEq κ] {k : κ} (v : β)
    {l : List (κ × β)} (h : lookupKV k l = none) :
    countKV k (updateKV k v l) = 1 := by
  induction l with
  | nil => simp [updateKV, countKV]
  | cons hd t ih =>
    obtain ⟨k', v'⟩ := hd
    by_cases hk : k = k'
    · simp [lookupKV, hk] at h
    · simp [lookupKV, hk] at h
      simp [updateKV, countKV, hk, ih h]

theorem lookupKV_eq_none_of_not_mem_keys {κ β : Type} [DecidableEq κ] {k : κ}
    {l : List (κ × β)} (h : k ∉ l.map Prod.fst) : lookupKV k l = none := by
  induction l with
  | nil => simp [lookupKV]
  | cons hd t ih =>
    obtain ⟨k', v'⟩ := hd
    have h1 : k ≠ k' := fun he => h (by simp [he])
    have h2 : k ∉ t.map Prod.fst := fun hm => h (by simp [hm])
    simp [lookupKV, h1, ih h2]

theorem keys_filter_subset {κ β : Type} {k : κ} {p : κ × β → Bool}
    {l : List (κ × β)} (h : k ∈ (l.filter p).map Prod.fst) :
    k ∈ l.map Prod.fst := by
  induction l with
  | nil => simp [List.filter] at h
  | cons hd t ih =>
    by_cases hp : p hd
    · simp [List.filter, hp] at h
      rcases h with h | h
      · simp [h]
      · simp [ih (by simp [h])]
    · simp [List.filter, hp] at h
      simp [ih (by simp [h])]

theorem lookupKV_filter {κ β : Type} [DecidableEq κ] {k : κ} {d : β}
    {p : κ × β → Bool} {l : List (κ × β)} (hnd : (l.map Prod.fst).Nodup) :
    lookupKV k (l.filter p) = some d ↔ lookupKV k l = some d ∧ p (k, d) = true := by
  induction l with
  | nil => simp [lookupKV]
  | cons hd t ih =>
    obtain ⟨k0, v0⟩ := hd
    rw [List.map_cons, List.nodup_cons] at hnd
    by_cases hk : k = k0
    · subst hk
      by_cases hp : p (k, v0)
      · simp [List.filter, hp, lookupKV]
        intro h
        subst h
        exact hp
      · have hnone : lookupKV k (t.filter p) = none :=
          lookupKV_eq_none_of_not_mem_keys
            (fun hmem => hnd.1 (keys_filter_subset hmem))
        simp [List.filter, hp, lookupKV, hnone]
        intro h
        subst h
        simp [hp]
    · by_cases hp : p (k0, v0) <;>
        simp [List.filter, hp, lookupKV, hk, ih hnd.2]

/-! ### Shape and consistency machinery -/

theorem OptRel_refl {α : Type} (R : α → α → Prop) (hR : ∀ a, R a a) :
    ∀ o : Option α, OptRel R o o
  | some _ => hR _
  | none => trivial

theorem OptRel_trans {α : Type} (R : α → α → Prop)
    (hR : ∀ a b c, R a b → R b c → R a c) :
    ∀ o1 o2 o3 : Option α, OptRel R o1 o2 → OptRel R o2 o3 → OptRel R o1 o3
  | some _, some _, some _, h1, h2 => hR _ _ _ h1 h2
  | none, none, none, _, _ => trivial
  | some _, none, _, h1, _ => absurd h1 (by simp [OptRel])
  | none, some _, _, h1, _ => absurd h1 (by simp [OptRel])
  | none, none, some _, _, h2 => absurd h2 (by simp [OptRel])
  | some _, some _, none, _, h2 => absurd h2 (by simp [OptRel])

theorem UniverseShapeEq_refl (u : UniversalSet) : UniverseShapeEq u u :=
  fun _ => OptRel_refl Set.memEq (fun _ => rfl) _

theorem UniverseShapeEq_trans {a b c : UniversalSet}
    (h1 : UniverseShapeEq a b) (h2 : UniverseShapeEq b c) : UniverseShapeEq a c :=
  fun sn => OptRel_trans Set.memEq (fun _ _ _ e1 e2 => e1.trans e2) _ _ _ (h1 sn) (h2 sn)

theorem shapeEqU_refl (u : Universes) : shapeEqU u u :=
  fun _ => OptRel_refl UniverseShapeEq UniverseShapeEq_refl _

theorem shapeEqU_trans {a b c : Universes} (h1 : shapeEqU a b) (h2 : shapeEqU b c) :
    shapeEqU a c :=
  fun n => OptRel_trans UniverseShapeEq (fun _ _ _ e1 e2 => UniverseShapeEq_trans e1 e2)
    _ _ _ (h1 n) (h2 n)

/-- On a consistent set with membership function `f`, `check x` returns `f x`
(with the function evaluated), leaves the set unchanged when `f x ≤ 0` or the
entry is already cached, and otherwise memoizes `(x, f x)`. -/
theorem Set.check_of_consistent {s : Set} {f : F → F} (hm : s.membership = some f)
    (hc : s.consistent) (x : F) :
    s.check x = .ok (f x, true,
      if F.le (f x) (F.num 0) then s else { s with cache := updateKV x (f x) s.cache }) := by
  obtain ⟨nm, mem, cch⟩ := s
  simp at hm
  subst hm
  cases hl : lookupKV x cch with
  | some v =>
    obtain ⟨hv, hpos⟩ := hc f rfl x v hl
    subst hv
    have hupd : updateKV x (f x) cch = cch := updateKV_lookup_self hl
    simp [Set.check, hl, hpos, hupd]
  | none =>
    cases hle : F.le (f x) (F.num 0) with
    | true => simp [Set.check, hl, hle, eraseKV_updateKV_absent (f x) hl]
    | false => simp [Set.check, hl, hle]

/-- The post-`check` set stays consistent. -/
theorem Set.consistent_after_check {s : Set} {f : F → F} (hm : s.membership = some f)
    (hc : s.consistent) (x : F) :
    Set.consistent (if F.le (f x) (F.num 0) then s
      else { s with cache := updateKV x (f x) s.cache }) := by
  cases hle : F.le (f x) (F.num 0) with
  | true => simpa [hle] using hc
  | false =>
    simp [hle]
    intro g hg y w hy
    have hg2 : g = f := by
      have hgf : some g = some f := by rw [← hg, hm]
      injection hgf
    subst hg2
    rcases lookupKV_updateKV_cases hy with ⟨hyx, hw⟩ | hmem
    · subst hyx; subst hw; exact ⟨rfl, hle⟩
    · exact hc g hm y w hmem

/-- Cache-free denotation is invariant under shape equality. -/
theorem evalD_shape (ops : InferenceOptions) (vals : List (String × F)) :
    ∀ (e : Expr) (u v : Universes), shapeEqU u v →
      Expr.evalD ops vals e u = Expr.evalD ops vals e v := by
  intro e
  induction e with
  | is var set =>
    intro u v hsh
    cases h1 : lookupKV var vals with
    | none => simp [Expr.evalD, h1]
    | some value =>
      have hrel := hsh var
      cases hu : lookupKV var u with
      | none =>
        cases hv : lookupKV var v with
        | none => simp [Expr.evalD, h1, hu, hv]
        | some uniV => rw [hu, hv] at hrel; exact absurd hrel (by simp [OptRel])
      | some uniU =>
        cases hv : lookupKV var v with
        | none => rw [hu, hv] at hrel; exact absurd hrel (by simp [OptRel])
        | some uniV =>
          rw [hu, hv] at hrel
          simp [OptRel] at hrel
          have hsets := hrel set
          cases hsu : lookupKV set uniU.sets with
          | none =>
            cases hsv : lookupKV set uniV.sets with
            | none => simp [Expr.evalD, h1, hu, hv, hsu, hsv]
            | some sV => rw [hsu, hsv] at hsets; exact absurd hsets (by simp [OptRel])
          | some sU =>
            cases hsv : lookupKV set uniV.sets with
            | none => rw [hsu, hsv] at hsets; exact absurd hsets (by simp [OptRel])
            | some sV =>
              rw [hsu, hsv] at hsets
              simp [OptRel, Set.memEq] at hsets
              simp [Expr.evalD, h1, hu, hv, hsu, hsv, hsets]
  | and l r ihl ihr =>
    intro u v hsh
    simp [Expr.evalD, ihl u v hsh, ihr u v hsh]
  | or l r ihl ihr =>
    intro u v hsh
    simp [Expr.evalD, ihl u v hsh, ihr u v hsh]
  | not e ih =>
    intro u v hsh
    simp [Expr.evalD, ih u v hsh]

/-- Registry consistency survives replacing one set by its post-`check`
version. -/
theorem consistentU_update {u : Universes} (hu : consistentU u) {var set : String}
    {uni : UniversalSet} {s' : Set} (h : lookupKV var u = some uni)
    (hs' : s'.consistent) :
    consistentU (updateKV var { uni with sets := updateKV set s' uni.sets } u) := by
  intro n uni2 hn sn s2 hs2
  rcases lookupKV_updateKV_cases hn with ⟨hnv, huni2⟩ | hold
  · subst huni2
    simp at hs2
    rcases lookupKV_updateKV_cases hs2 with ⟨hsn, hs2eq⟩ | hold2
    · subst hs2eq; exact hs'
    · exact hu var uni h sn s2 hold2
  · exact hu n uni2 hold sn s2 hs2

/-- Shape equality survives replacing one set by another with the same
membership function. -/
theorem shapeEqU_update {u : Universes} {var set : String} {uni : UniversalSet}
    {s s' : Set} (h : lookupKV var u = some uni)
    (hset : lookupKV set uni.sets = some s) (hmem : s'.membership = s.membership) :
    shapeEqU u (updateKV var { uni with sets := updateKV set s' uni.sets } u) := by
  intro n
  by_cases hn : n = var
  · subst hn
    rw [h, lookupKV_updateKV_self]
    simp [OptRel]
    intro sn
    by_cases hsn : sn = set
    · subst hsn
      rw [hset]
      simp [lookupKV_updateKV_self]
      exact hmem.symm
    · simp [lookupKV_updateKV_ne _ _ hsn]
      exact OptRel_refl Set.memEq (fun _ => rfl) _
  · rw [lookupKV_updateKV_ne _ _ hn]
    exact OptRel_refl UniverseShapeEq UniverseShapeEq_refl _

/-- Main evaluation lemma: on a consistent registry, `Expr.eval` crashes
exactly as the cache-free denotation does, and on success it returns the
denotation's degree while preserving consistency and shape. -/
theorem eval_sound (ops : InferenceOptions) (vals : List (String × F)) :
    ∀ (e : Expr) (u : Universes), consistentU u →
      (∀ msg, Expr.eval ops vals e u = .crash msg →
        Expr.evalD ops vals e u = .crash msg) ∧
      (∀ d u', Expr.eval ops vals e u = .ok (d, u') →
        Expr.evalD ops vals e u = .ok d ∧ consistentU u' ∧ shapeEqU u u') := by
  intro e
  induction e with
  | is var set =>
    intro u hu
    cases h1 : lookupKV var vals with
    | none =>
      refine ⟨fun msg h => ?_, fun d u' h => ?_⟩
      · simp [Expr.eval, h1] at h
        simp [Expr.evalD, h1, ← h]
      · simp [Expr.eval, h1] at h
    | some value =>
      cases h2 : lookupKV var u with
      | none =>
        refine ⟨fun msg h => ?_, fun d u' h => ?_⟩
        · simp [Expr.eval, h1, h2] at h
          simp [Expr.evalD, h1, h2, ← h]
        · simp [Expr.eval, h1, h2] at h
      | some uni =>
        cases h3 : lookupKV set uni.sets with
        | none =>
          refine ⟨fun msg h => ?_, fun d u' h => ?_⟩
          · simp [Expr.eval, h1, h2, h3] at h
            simp [Expr.evalD, h1, h2, h3, ← h]
          · simp [Expr.eval, h1, h2, h3] at h
        | some s =>
          cases hm : s.membership with
          | none =>
            refine ⟨fun msg h => ?_, fun d u' h => ?_⟩
            · simp [Expr.eval, h1, h2, h3, Set.check, hm] at h
              simp [Expr.evalD, h1, h2, h3, hm, ← h]
            · simp [Expr.eval, h1, h2, h3, Set.check, hm] at h
          | some f =>
            have hc : s.consistent := hu var uni h2 set s h3
            have hch := Set.check_of_consistent hm hc value
            refine ⟨fun msg h => ?_, fun d u' h => ?_⟩
            · simp [Expr.eval, h1, h2, h3, hch] at h
            · simp [Expr.eval, h1, h2, h3, hch] at h
              obtain ⟨hd, hu2⟩ := h
              subst hu2
              refine ⟨by simp [Expr.evalD, h1, h2, h3, hm, hd], ?_, ?_⟩
              · exact consistentU_update hu h2 (Set.consistent_after_check hm hc value)
              · refine shapeEqU_update h2 h3 ?_
                cases hle : F.le (f value) (F.num 0) <;> simp [hle]
  | and l r ihl ihr =>
    intro u hu
    refine ⟨fun msg h => ?_, fun d u' h => ?_⟩
    · cases h1 : Expr.eval ops vals l u with
      | crash m =>
        simp [Expr.eval, h1] at h
        simp [Expr.evalD, (ihl u hu).1 m h1, ← h]
      | ok p1 =>
        obtain ⟨dl, u1⟩ := p1
        obtain ⟨hdl, hc1, hsh1⟩ := (ihl u hu).2 dl u1 h1
        cases h2 : Expr.eval ops vals r u1 with
        | crash m =>
          simp [Expr.eval, h1, h2] at h
          have hru : Expr.evalD ops vals r u = .crash m :=
            (evalD_shape ops vals r u u1 hsh1).trans ((ihr u1 hc1).1 m h2)
          simp [Expr.evalD, hdl, hru, ← h]
        | ok p2 => simp [Expr.eval, h1, h2] at h
    · cases h1 : Expr.eval ops vals l u with
      | crash m => simp [Expr.eval, h1] at h
      | ok p1 =>
        obtain ⟨dl, u1⟩ := p1
        obtain ⟨hdl, hc1, hsh1⟩ := (ihl u hu).2 dl u1 h1
        cases h2 : Expr.eval ops vals r u1 with
        | crash m => simp [Expr.eval, h1, h2] at h
        | ok p2 =>
          obtain ⟨dr, u2⟩ := p2
          obtain ⟨hdr, hc2, hsh2⟩ := (ihr u1 hc1).2 dr u2 h2
          simp [Expr.eval, h1, h2] at h
          obtain ⟨hd, hu2⟩ := h
          subst hu2
          have hru : Expr.evalD ops vals r u = .ok dr :=
            (evalD_shape ops vals r u u1 hsh1).trans hdr
          exact ⟨by simp [Expr.evalD, hdl, hru, hd], hc2, shapeEqU_trans hsh1 hsh2⟩
  | or l r ihl ihr =>
    intro u hu
    refine ⟨fun msg h => ?_, fun d u' h => ?_⟩
    · cases h1 : Expr.eval ops vals l u with
      | crash m =>
        simp [Expr.eval, h1] at h
        simp [Expr.evalD, (ihl u hu).1 m h1, ← h]
      | ok p1 =>
        obtain ⟨dl, u1⟩ := p1
        obtain ⟨hdl, hc1, hsh1⟩ := (ihl u hu).2 dl u1 h1
        cases h2 : Expr.eval ops vals r u1 with
        | crash m =>
          simp [Expr.eval, h1, h2] at h
          have hru : Expr.evalD ops vals r u = .crash m :=
            (evalD_shape ops vals r u u1 hsh1).trans ((ihr u1 hc1).1 m h2)
          simp [Expr.evalD, hdl, hru, ← h]
        | ok p2 => simp [Expr.eval, h1, h2] at h
    · cases h1 : Expr.eval ops vals l u with
      | crash m => simp [Expr.eval, h1] at h
      | ok p1 =>
        obtain ⟨dl, u1⟩ := p1
        obtain ⟨hdl, hc1, hsh1⟩ := (ihl u hu).2 dl u1 h1
        cases h2 : Expr.eval ops vals r u1 with
        | crash m => simp [Expr.eval, h1, h2] at h
        | ok p2 =>
          obtain ⟨dr, u2⟩ := p2
          obtain ⟨hdr, hc2, hsh2⟩ := (ihr u1 hc1).2 dr u2 h2
          simp [Expr.eval, h1, h2] at h
          obtain ⟨hd, hu2⟩ := h
          subst hu2
          have hru : Expr.evalD ops vals r u = .ok dr :=
            (evalD_shape ops vals r u u1 hsh1).trans hdr
          exact ⟨by simp [Expr.evalD, hdl, hru, hd], hc2, shapeEqU_trans hsh1 hsh2⟩
  | not e ih =>
    intro u hu
    refine ⟨fun msg h => ?_, fun d u' h => ?_⟩
    · cases h1 : Expr.eval ops vals e u with
      | crash m =>
        simp [Expr.eval, h1] at h
        simp [Expr.evalD, (ih u hu).1 m h1, ← h]
      | ok p1 => simp [Expr.eval, h1] at h
    · cases h1 : Expr.eval ops vals e u with
      | crash m => simp [Expr.eval, h1] at h
      | ok p1 =>
        obtain ⟨de, u1⟩ := p1
        obtain ⟨hde, hc1, hsh1⟩ := (ih u hu).2 de u1 h1
        simp [Expr.eval, h1] at h
        obtain ⟨hd, hu2⟩ := h
        subst hu2
        exact ⟨by simp [Expr.evalD, hde, hd], hc1, hsh1⟩

/-! ### Frame lemma: evaluation only touches universes named by `Is` leaves -/

theorem eval_frame (ops : InferenceOptions) (vals : List (String × F)) :
    ∀ (e : Expr) (u : Universes) (d : F) (u' : Universes),
      Expr.eval ops vals e u = .ok (d, u') →
      ∀ n, n ∉ e.vars → lookupKV n u' = lookupKV n u := by
  intro e
  induction e with
  | is var set =>
    intro u d u' h n hn
    simp [Expr.vars] at hn
    cases h1 : lookupKV var vals with
    | none => simp [Expr.eval, h1] at h
    | some value =>
      cases h2 : lookupKV var u with
      | none => simp [Expr.eval, h1, h2] at h
      | some uni =>
        cases h3 : lookupKV set uni.sets with
        | none => simp [Expr.eval, h1, h2, h3] at h
        | some s =>
          cases h4 : s.check value with
          | crash m => simp [Expr.eval, h1, h2, h3, h4] at h
          | ok triple =>
            obtain ⟨mem, b, s'⟩ := triple
            simp [Expr.eval, h1, h2, h3, h4] at h
            rw [← h.2]
            exact lookupKV_updateKV_ne _ u hn
  | and l r ihl ihr =>
    intro u d u' h n hn
    simp [Expr.vars] at hn
    cases h1 : Expr.eval ops vals l u with
    | crash m => simp [Expr.eval, h1] at h
    | ok p1 =>
      obtain ⟨dl, u1⟩ := p1
      cases h2 : Expr.eval ops vals r u1 with
      | crash m => simp [Expr.eval, h1, h2] at h
      | ok p2 =>
        obtain ⟨dr, u2⟩ := p2
        simp [Expr.eval, h1, h2] at h
        rw [← h.2, ihr u1 dr u2 h2 n hn.2, ihl u dl u1 h1 n hn.1]
  | or l r ihl ihr =>
    intro u d u' h n hn
    simp [Expr.vars] at hn
    cases h1 : Expr.eval ops vals l u with
    | crash m => simp [Expr.eval, h1] at h
    | ok p1 =>
      obtain ⟨dl, u1⟩ := p1
      cases h2 : Expr.eval ops vals r u1 with
      | crash m => simp [Expr.eval, h1, h2] at h
      | ok p2 =>
        obtain ⟨dr, u2⟩ := p2
        simp [Expr.eval, h1, h2] at h
        rw [← h.2, ihr u1 dr u2 h2 n hn.2, ihl u dl u1 h1 n hn.1]
  | not e ih =>
    intro u d u' h n hn
    simp [Expr.vars] at hn
    cases h1 : Expr.eval ops vals e u with
    | crash m => simp [Expr.eval, h1] at h
    | ok p1 =>
      obtain ⟨de, u1⟩ := p1
      simp [Expr.eval, h1] at h
      rw [← h.2]
      exact ih u de u1 h1 n hn

/-! ### Stability of rule evaluation across repeated computation cycles -/

theorem rule_stable (ops : InferenceOptions) (vals : List (String × F))
    {u0 : Universes} {ru : String} {r : Rule} {u v : Universes} {res : Set}
    {u' : Universes} (hgu : goodU u0 ru u) (hgv : goodU u0 ru v)
    (hru : r.result_universe = ru) (hfree : ru ∉ r.condition.vars)
    (hc : r.compute ops vals u = .ok (res, u')) :
    goodU u0 ru u' ∧
      ∃ v', r.compute ops vals v = .ok (res, v') ∧ goodU u0 ru v' := by
  obtain ⟨hcu, hshu, hlu⟩ := hgu
  obtain ⟨hcv, hshv, hlv⟩ := hgv
  cases he : Expr.eval ops vals r.condition u with
  | crash m => simp [Rule.compute, he] at hc
  | ok pe =>
    obtain ⟨d, ue⟩ := pe
    obtain ⟨hD, hcue, hshue⟩ := (eval_sound ops vals r.condition u hcu).2 d ue he
    have hfu : lookupKV ru ue = lookupKV ru u0 :=
      (eval_frame ops vals r.condition u d ue he ru hfree).trans hlu
    have hDv : Expr.evalD ops vals r.condition v = .ok d := by
      rw [← evalD_shape ops vals r.condition u0 v hshv,
        evalD_shape ops vals r.condition u0 u hshu]
      exact hD
    cases ht : lookupKV r.result_universe ue with
    | none => simp [Rule.compute, he, ht] at hc
    | some uni =>
      cases hts : lookupKV r.result_set uni.sets with
      | none => simp [Rule.compute, he, ht, hts] at hc
      | some tset =>
        simp [Rule.compute, he, ht, hts] at hc
        obtain ⟨hres, hu'⟩ := hc
        subst hu'
        refine ⟨⟨hcue, shapeEqU_trans hshu hshue, hfu⟩, ?_⟩
        cases hev : Expr.eval ops vals r.condition v with
        | crash m =>
          have := (eval_sound ops vals r.condition v hcv).1 m hev
          rw [hDv] at this
          exact absurd this (by simp)
        | ok pv =>
          obtain ⟨d2, ve⟩ := pv
          obtain ⟨hD2, hcve, hshve⟩ := (eval_sound ops vals r.condition v hcv).2 d2 ve hev
          rw [hDv] at hD2
          have hd2 : d2 = d := by injection hD2 with h; exact h.symm
          subst hd2
          have hfv : lookupKV ru ve = lookupKV ru u0 :=
            (eval_frame ops vals r.condition v d2 ve hev ru hfree).trans hlv
          have htv : lookupKV r.result_universe ve = some uni := by
            rw [hru, hfv, ← hfu, ← hru, ht]
          refine ⟨ve, ?_, hcve, shapeEqU_trans hshv hshve, hfv⟩
          simp [Rule.compute, hev, htv, hts, hres]

theorem go_stable (ops : InferenceOptions) (vals : List (String × F)) :
    ∀ (rs : List Rule) (acc : Set) (u v : Universes) (u0 : Universes) (ru : String)
      (res : Set) (uEnd : Universes),
      (∀ r ∈ rs, r.result_universe = ru ∧ ru ∉ r.condition.vars) →
      goodU u0 ru u → goodU u0 ru v →
      computeAllGo ops vals rs acc u = .ok (res, uEnd) →
      goodU u0 ru uEnd ∧
        ∃ vEnd, computeAllGo ops vals rs acc v = .ok (res, vEnd) ∧ goodU u0 ru vEnd := by
  intro rs
  induction rs with
  | nil =>
    intro acc u v u0 ru res uEnd hall hgu hgv h
    simp [computeAllGo] at h
    obtain ⟨h1, h2⟩ := h
    subst h1
    subst h2
    exact ⟨hgu, v, by simp [computeAllGo], hgv⟩
  | cons r t ih =>
    intro acc u v u0 ru res uEnd hall hgu hgv h
    cases hr : r.compute ops vals u with
    | crash m => simp [computeAllGo, hr] at h
    | ok pr =>
      obtain ⟨res1, u1⟩ := pr
      simp [computeAllGo, hr] at h
      have hhead := hall r (by simp)
      obtain ⟨hg1, v1, hv1, hg2⟩ :=
        rule_stable ops vals hgu hgv hhead.1 hhead.2 hr
      obtain ⟨hgend, vEnd, hvEnd, hgvEnd⟩ :=
        ih (ops.setUnion acc res1) u1 v1 u0 ru res uEnd
          (fun r2 hmem => hall r2 (by simp [hmem])) hg1 hg2 h
      exact ⟨hgend, vEnd, by simp [computeAllGo, hv1, hvEnd], hgvEnd⟩

theorem computeAll_stable (ops : InferenceOptions) (vals : List (String × F))
    {rs : RuleSet} {u v : Universes} {u0 : Universes} {ru : String} {res : Set}
    {uEnd : Universes}
    (hall : ∀ r ∈ rs.rules, r.result_universe = ru ∧ ru ∉ r.condition.vars)
    (hgu : goodU u0 ru u) (hgv : goodU u0 ru v)
    (h : rs.computeAll ops vals u = .ok (res, uEnd)) :
    goodU u0 ru uEnd ∧
      ∃ vEnd, rs.computeAll ops vals v = .ok (res, vEnd) ∧ goodU u0 ru vEnd := by
  cases hrules : rs.rules with
  | nil => simp [RuleSet.computeAll, hrules] at h
  | cons r0 rest =>
    cases hr0 : r0.compute ops vals u with
    | crash m => simp [RuleSet.computeAll, hrules, hr0] at h
    | ok p0 =>
      obtain ⟨acc, u1⟩ := p0
      simp [RuleSet.computeAll, hrules, hr0] at h
      have hhead := hall r0 (by simp [hrules])
      obtain ⟨hg1, v1, hv1, hg2⟩ :=
        rule_stable ops vals hgu hgv hhead.1 hhead.2 hr0
      obtain ⟨hgend, vEnd, hvEnd, hgvEnd⟩ :=
        go_stable ops vals rest acc u1 v1 u0 ru res uEnd
          (fun r2 hmem => hall r2 (by simp [hrules, hmem])) hg1 hg2 h
      exact ⟨hgend, vEnd, by simp [RuleSet.computeAll, hrules, hv1, hvEnd], hgvEnd⟩

/-! ### Remaining helper lemmas -/

theorem lookupKV_some_is_mem {κ β : Type} [DecidableEq κ] {k : κ} {v : β} :
    ∀ {l : List (κ × β)}, lookupKV k l = some v → ∃ k2, (k2, v) ∈ l := by
  intro l
  induction l with
  | nil => intro h; simp [lookupKV] at h
  | cons hd t ih =>
    obtain ⟨k1, v1⟩ := hd
    intro h
    by_cases hk : k = k1
    · simp [lookupKV, hk] at h
      exact ⟨k1, by simp [h]⟩
    · simp [lookupKV, hk] at h
      obtain ⟨k2, hm⟩ := ih h
      exact ⟨k2, by simp [hm]⟩

theorem consistentU_of_allCachesEmpty {u : Universes} (h : allCachesEmpty u = true) :
    consistentU u := by
  intro n uni hn sn st hs f hf x w hv
  obtain ⟨k1, hm1⟩ := lookupKV_some_is_mem hn
  obtain ⟨k2, hm2⟩ := lookupKV_some_is_mem hs
  have h1 := (List.all_eq_true.mp h) _ hm1
  have h2 := (List.all_eq_true.mp h1) _ hm2
  simp [List.isEmpty_iff] at h2
  rw [h2] at hv
  simp [lookupKV] at hv

theorem eval_empty_vals (ops : InferenceOptions) :
    ∀ (e : Expr) (u : Universes),
      Expr.eval ops [] e u = .crash "no entry found for key" := by
  intro e
  induction e with
  | is var set => intro u; simp [Expr.eval, lookupKV]
  | and l r ihl ihr => intro u; simp [Expr.eval, ihl u]
  | or l r ihl ihr => intro u; simp [Expr.eval, ihl u]
  | not e ih => intro u; simp [Expr.eval, ih u]

theorem firstConflict_none {u0 : String} {rules : List Rule}
    (h : ∀ r ∈ rules, r.result_universe = u0) : firstConflict u0 rules = none := by
  induction rules with
  | nil => rfl
  | cons r t ih =>
    simp [firstConflict, h r (by simp)]
    exact ih fun r2 hm => h r2 (by simp [hm])

theorem firstConflict_some {u0 : String} {pre post : List Rule} {r : Rule}
    (hpre : ∀ p ∈ pre, p.result_universe = u0) (hr : r.result_universe ≠ u0) :
    firstConflict u0 (pre ++ r :: post) = some r.result_universe := by
  induction pre with
  | nil => simp [firstConflict, hr]
  | cons p t ih =>
    simp [firstConflict, hpre p (by simp)]
    exact ih fun p2 hm => hpre p2 (by simp [hm])

/-! ### The claims -/

/-- C1 (corrected): the claim says every evaluation-time lookup miss is
surfaced as a recoverable typed error and `compute()` returns a failure
value rather than terminating the process.  On `c1Machine` — its one rule
references variable `x`, present in the value map but absent from the
universe registry — `compute()` panics (`.expect` with message
`"x is not exists"`), terminating the thread; it does not return a failure
value.  No `UnknownVariable`/`UnknownUniverse`/`UnknownSet` error type
exists in the code. -/
theorem claim1_counterexample : computeVal c1Machine = .crash "x is not exists" := by
  with_unfolding_all rfl

/-- C1 amended: every lookup miss panics.  A missing condition variable
panics with Rust's `HashMap`-index message `"no entry found for key"`;
missing universes and sets (both in `Is::eval` and in `Rule::compute`'s
target lookup) panic via `.expect` with `"<name> is not exists"`;
and `InferenceMachine::compute` propagates any such panic instead of
returning. -/
theorem claim1_lookup_miss_panics (var set : String) (ops : InferenceOptions)
    (vals : List (String × F)) (u : Universes) :
    (lookupKV var vals = none →
      Expr.eval ops vals (Expr.is var set) u = .crash "no entry found for key") ∧
    (∀ value, lookupKV var vals = some value → lookupKV var u = none →
      Expr.eval ops vals (Expr.is var set) u = .crash (var ++ " is not exists")) ∧
    (∀ value uni, lookupKV var vals = some value → lookupKV var u = some uni →
      lookupKV set uni.sets = none →
      Expr.eval ops vals (Expr.is var set) u = .crash (set ++ " is not exists")) ∧
    (∀ (r : Rule) (d : F) (u2 : Universes),
      Expr.eval ops vals r.condition u = .ok (d, u2) →
      lookupKV r.result_universe u2 = none →
      r.compute ops vals u = .crash (r.result_universe ++ " is not exists")) ∧
    (∀ (r : Rule) (d : F) (u2 : Universes) (uni : UniversalSet),
      Expr.eval ops vals r.condition u = .ok (d, u2) →
      lookupKV r.result_universe u2 = some uni →
      lookupKV r.result_set uni.sets = none →
      r.compute ops vals u = .crash (r.result_set ++ " is not exists")) ∧
    (∀ (m : InferenceMachine) (msg : String),
      m.rules.computeAll m.options m.values m.universes = .crash msg →
      m.compute = .crash msg) := by
  refine ⟨fun h => ?_, fun value h1 h2 => ?_, fun value uni h1 h2 h3 => ?_,
    fun r d u2 he ht => ?_, fun r d u2 uni he ht hts => ?_, fun m msg h => ?_⟩
  · simp [Expr.eval, h]
  · simp [Expr.eval, h1, h2]
  · simp [Expr.eval, h1, h2, h3]
  · simp [Rule.compute, he, ht]
  · simp [Rule.compute, he, ht, hts]
  · simp [InferenceMachine.compute, h]

/-- C1 witness: each panic case of `claim1_lookup_miss_panics` realized on a
concrete configuration. -/
theorem claim1_witness :
    (lookupKV "x" ([] : List (String × F)) = none ∧
      Expr.eval opsTrivial [] (Expr.is "x" "s") [] = .crash "no entry found for key") ∧
    (lookupKV "x" [("x", F.num 0)] = some (F.num 0) ∧
      lookupKV "x" ([] : Universes) = none ∧
      Expr.eval opsTrivial [("x", F.num 0)] (Expr.is "x" "s") [] =
        .crash ("x" ++ " is not exists")) ∧
    (lookupKV "x" c1uEmptySets = some (⟨"x", [], []⟩ : UniversalSet) ∧
      lookupKV "s" (⟨"x", [], []⟩ : UniversalSet).sets = none ∧
      Expr.eval opsTrivial [("x", F.num 0)] (Expr.is "x" "s") c1uEmptySets =
        .crash ("s" ++ " is not exists")) ∧
    (Expr.eval opsTrivial [("x", F.num 0)] c1Rule.condition c1uNoTarget =
        .ok (F.num 1, c1uNoTarget2) ∧
      lookupKV c1Rule.result_universe c1uNoTarget2 = none ∧
      c1Rule.compute opsTrivial [("x", F.num 0)] c1uNoTarget =
        .crash (c1Rule.result_universe ++ " is not exists")) ∧
    (Expr.eval opsTrivial [("x", F.num 0)] c1Rule.condition c1uNoTargetSet =
        .ok (F.num 1, c1uNoTargetSet2) ∧
      lookupKV c1Rule.result_universe c1uNoTargetSet2 =
        some (⟨"out", [], []⟩ : UniversalSet) ∧
      lookupKV c1Rule.result_set (⟨"out", [], []⟩ : UniversalSet).sets = none ∧
      c1Rule.compute opsTrivial [("x", F.num 0)] c1uNoTargetSet =
        .crash (c1Rule.result_set ++ " is not exists")) ∧
    (c1Machine.rules.computeAll c1Machine.options c1Machine.values c1Machine.universes =
        .crash "x is not exists" ∧
      c1Machine.compute = .crash "x is not exists") := by
  refine ⟨⟨by with_unfolding_all rfl, ?_⟩, ⟨by with_unfolding_all rfl,
      by with_unfolding_all rfl, ?_⟩,
    ⟨by with_unfolding_all rfl, by with_unfolding_all rfl, ?_⟩,
    ⟨by with_unfolding_all rfl, by with_unfolding_all rfl, ?_⟩,
    ⟨by with_unfolding_all rfl, by with_unfolding_all rfl, by with_unfolding_all rfl, ?_⟩,
    ⟨by with_unfolding_all rfl, ?_⟩⟩
  · exact (claim1_lookup_miss_panics "x" "s" opsTrivial [] []).1 (by with_unfolding_all rfl)
  · exact (claim1_lookup_miss_panics "x" "s" opsTrivial [("x", F.num 0)] []).2.1
      (F.num 0) (by with_unfolding_all rfl) (by with_unfolding_all rfl)
  · exact (claim1_lookup_miss_panics "x" "s" opsTrivial [("x", F.num 0)] c1uEmptySets).2.2.1
      (F.num 0) ⟨"x", [], []⟩ (by with_unfolding_all rfl) (by with_unfolding_all rfl)
      (by with_unfolding_all rfl)
  · exact (claim1_lookup_miss_panics "x" "s" opsTrivial [("x", F.num 0)]
        c1uNoTarget).2.2.2.1 c1Rule (F.num 1) c1uNoTarget2
      (by with_unfolding_all rfl) (by with_unfolding_all rfl)
  · exact (claim1_lookup_miss_panics "x" "s" opsTrivial [("x", F.num 0)]
        c1uNoTargetSet).2.2.2.2.1 c1Rule (F.num 1) c1uNoTargetSet2 ⟨"out", [], []⟩
      (by with_unfolding_all rfl) (by with_unfolding_all rfl) (by with_unfolding_all rfl)
  · exact (claim1_lookup_miss_panics "x" "s" opsTrivial [] []).2.2.2.2.2 c1Machine
      "x is not exists" (by with_unfolding_all rfl)

/-- C2 (confirmed): when the condition evaluates to firing strength `s` and
the target universe/set lookups succeed, `Rule::compute` returns a new
membership-function-free set named `"<universe>: <set>"` whose cache is
exactly the entries of the target's current cache with degree `≤ s` — kept
with their original degrees, entries above `s` dropped, not clamped.  The
second conjunct characterizes the resulting cache lookup-wise (the target
cache has unique keys, as every `HashMap` does). -/
theorem claim2_rule_filters_target (r : Rule) (ops : InferenceOptions)
    (vals : List (String × F)) (u : Universes) (s : F) (u2 : Universes)
    (uni : UniversalSet) (tset : Set)
    (he : Expr.eval ops vals r.condition u = .ok (s, u2))
    (hu : lookupKV r.result_universe u2 = some uni)
    (hs : lookupKV r.result_set uni.sets = some tset)
    (hnd : (tset.cache.map Prod.fst).Nodup) :
    r.compute ops vals u =
      .ok (⟨r.result_universe ++ ": " ++ r.result_set, none,
            tset.cache.filter (fun kv => F.le kv.2 s)⟩, u2) ∧
    (∀ k d, lookupKV k (tset.cache.filter (fun kv => F.le kv.2 s)) = some d ↔
      (lookupKV k tset.cache = some d ∧ F.le d s = true)) := by
  constructor
  · simp [Rule.compute, he, hu, hs, Set.new_with_domain]
  · intro k d
    exact lookupKV_filter hnd

/-- C2 witness: on `c2u` the condition fires with strength `1`; the target
cache `[(3, 1/2), (4, 2)]` is filtered to `[(3, 1/2)]` — the degree-2 entry
is dropped, the kept entry keeps its degree. -/
theorem claim2_witness :
    (Expr.eval opsTrivial [("u", F.num 0)] c2Rule.condition c2u = .ok (F.num 1, c2u2)) ∧
    (lookupKV c2Rule.result_universe c2u2 = some c2uni) ∧
    (lookupKV c2Rule.result_set c2uni.sets = some c2tset) ∧
    ((c2tset.cache.map Prod.fst).Nodup) ∧
    (c2Rule.compute opsTrivial [("u", F.num 0)] c2u =
      .ok (⟨c2Rule.result_universe ++ ": " ++ c2Rule.result_set, none,
            c2tset.cache.filter (fun kv => F.le kv.2 (F.num 1))⟩, c2u2) ∧
      (∀ k d, lookupKV k (c2tset.cache.filter (fun kv => F.le kv.2 (F.num 1))) = some d ↔
        (lookupKV k c2tset.cache = some d ∧ F.le d (F.num 1) = true))) :=
  ⟨by with_unfolding_all rfl, by with_unfolding_all rfl, by with_unfolding_all rfl,
   by with_unfolding_all decide,
   claim2_rule_filters_target c2Rule opsTrivial [("u", F.num 0)] c2u (F.num 1) c2u2
     c2uni c2tset (by with_unfolding_all rfl) (by with_unfolding_all rfl)
     (by with_unfolding_all rfl) (by with_unfolding_all decide)⟩

/-- C3 (corrected): the claim says building a `RuleSet` from an empty rule
list fails with a recoverable `ConfigurationError`.  It does not: `rules[0]`
panics with the slice-index message before any validation runs. -/
theorem claim3_counterexample :
    RuleSet.new ([] : List Rule) =
      .crash "index out of bounds: the len is 0 but the index is 0" := rfl

/-- C3 amended: an empty rule list makes `RuleSet::new` panic with the
slice-index message (not a recoverable error); `N ≥ 1` rules sharing one
result universe yield `Ok`; and a rule whose result universe differs from the
first rule's yields a recoverable `Err` whose message names both conflicting
universes. -/
theorem claim3_ruleset_construction (r0 r : Rule) (pre post rest : List Rule)
    (hsame : ∀ r2 ∈ rest, r2.result_universe = r0.result_universe)
    (hpre : ∀ p ∈ pre, p.result_universe = r0.result_universe)
    (hdiff : r.result_universe ≠ r0.result_universe) :
    RuleSet.new ([] : List Rule) =
      .crash "index out of bounds: the len is 0 but the index is 0" ∧
    RuleSet.new (r0 :: rest) = .ok (.ok ⟨r0 :: rest⟩) ∧
    RuleSet.new (r0 :: (pre ++ r :: post)) =
      .ok (.error ("Rules are in different result universes(" ++ r0.result_universe
        ++ " and " ++ r.result_universe ++ ")")) := by
  refine ⟨rfl, ?_, ?_⟩
  · simp [RuleSet.new, firstConflict, firstConflict_none hsame]
  · simp [RuleSet.new, firstConflict, firstConflict_some hpre hdiff]

/-- C3 witness: two same-universe rules succeed; `out` versus `other`
fails with the message naming both. -/
theorem claim3_witness :
    (∀ r2 ∈ [c7r1], r2.result_universe = c7r1.result_universe) ∧
    (∀ p ∈ ([] : List Rule), p.result_universe = c7r1.result_universe) ∧
    (c3OtherRule.result_universe ≠ c7r1.result_universe) ∧
    (RuleSet.new ([] : List Rule) =
        .crash "index out of bounds: the len is 0 but the index is 0" ∧
      RuleSet.new (c7r1 :: [c7r1]) = .ok (.ok ⟨c7r1 :: [c7r1]⟩) ∧
      RuleSet.new (c7r1 :: ([] ++ c3OtherRule :: [])) =
        .ok (.error ("Rules are in different result universes(" ++ c7r1.result_universe
          ++ " and " ++ c3OtherRule.result_universe ++ ")"))) :=
  ⟨by decide, by decide, by decide,
   claim3_ruleset_construction c7r1 c3OtherRule [] [] [c7r1]
     (by decide) (by decide) (by decide)⟩

/-- C4 (corrected): the claim says the membership function is not re-invoked
on the second (hit) call.  It is: `or_insert` receives its argument by value,
so `f(x)` is evaluated on every call.  Here the second `check(0)` on
`c4Set1` is a cache hit (the entry is present with degree `1`), yet the
invocation flag of the call is `true`. -/
theorem claim4_counterexample :
    lookupKV (F.num 0) c4Set1.cache = some (F.num 1) ∧
    checkInvoked c4Set1 (F.num 0) = some true := by
  constructor <;> with_unfolding_all rfl

/-- C4 amended: two back-to-back `check(x)` calls on a set with a membership
function and no cached entry for `x` return the identical degree `f x` both
times, the function is evaluated on **both** calls (eager `or_insert`
argument), and afterwards the cache holds exactly one entry for `x` when
`f x > 0` and none when `f x ≤ 0`. -/
theorem claim4_check_twice (s : Set) (f : F → F) (x : F)
    (hm : s.membership = some f) (hx : lookupKV x s.cache = none) :
    ∃ s1 s2,
      s.check x = .ok (f x, true, s1) ∧
      s1.check x = .ok (f x, true, s2) ∧
      (F.le (f x) (F.num 0) = false →
        lookupKV x s2.cache = some (f x) ∧ countKV x s2.cache = 1) ∧
      (F.le (f x) (F.num 0) = true → countKV x s2.cache = 0) := by
  obtain ⟨nm, mem, cch⟩ := s
  simp at hm
  subst hm
  simp at hx
  cases hle : F.le (f x) (F.num 0) with
  | false =>
    refine ⟨⟨nm, some f, updateKV x (f x) cch⟩, ⟨nm, some f, updateKV x (f x) cch⟩,
      ?_, ?_, ?_, ?_⟩
    · simp [Set.check, hx, hle]
    · simp [Set.check, lookupKV_updateKV_self, hle]
    · exact fun _ => ⟨lookupKV_updateKV_self x (f x) cch,
        countKV_updateKV_absent (f x) hx⟩
    · intro hh; simp at hh
  | true =>
    refine ⟨⟨nm, some f, cch⟩, ⟨nm, some f, cch⟩, ?_, ?_, ?_, ?_⟩
    · simp [Set.check, hx, hle, eraseKV_updateKV_absent (f x) hx]
    · simp [Set.check, hx, hle, eraseKV_updateKV_absent (f x) hx]
    · intro hh; simp at hh
    · exact fun _ => countKV_eq_zero hx

/-- C4 witness: `claim4_check_twice` on a concrete fresh constant-1 set. -/
theorem claim4_witness :
    c4Set.membership = some (fun _ => F.num 1) ∧
    lookupKV (F.num 0) c4Set.cache = none ∧
    (∃ s1 s2,
      c4Set.check (F.num 0) = .ok (F.num 1, true, s1) ∧
      s1.check (F.num 0) = .ok (F.num 1, true, s2) ∧
      (F.le (F.num 1) (F.num 0) = false →
        lookupKV (F.num 0) s2.cache = some (F.num 1) ∧ countKV (F.num 0) s2.cache = 1) ∧
      (F.le (F.num 1) (F.num 0) = true → countKV (F.num 0) s2.cache = 0)) :=
  ⟨rfl, rfl, claim4_check_twice c4Set (fun _ => F.num 1) (F.num 0) rfl rfl⟩

/-- C5 (corrected): the claim says `check` on a membership-function-free set
yields a typed `InvalidMembershipUse` error returned to the caller.  Instead
the code panics via `unreachable!` — here even though the queried key `1` is
present in the snapshot's cache, because `or_insert`'s argument is evaluated
eagerly. -/
theorem claim5_counterexample :
    lookupKV (F.num 1) c5Set.cache = some (F.num (1/2)) ∧
    c5Set.check (F.num 1) = .crash "internal error: entered unreachable code" := by
  constructor <;> with_unfolding_all rfl

/-- C5 amended: `check` on a set built without a membership function panics
with the `unreachable!` message for every argument, including keys present in
the cache; no `InvalidMembershipUse` value is returned to the caller. -/
theorem claim5_no_membership_panics (s : Set) (x : F) (hm : s.membership = none) :
    s.check x = .crash "internal error: entered unreachable code" := by
  simp [Set.check, hm]

/-- C5 witness: the snapshot set panics at a cached key. -/
theorem claim5_witness :
    c5Set.membership = none ∧
    c5Set.check (F.num 1) = .crash "internal error: entered unreachable code" :=
  ⟨rfl, claim5_no_membership_panics c5Set (F.num 1) rfl⟩

/-- C6 (corrected): the claim says the end-to-end scenario returns
`("action: low", v)` with `v ∈ [0, 50]`.  The label is right but the crisp
value is NaN: `action/low`'s cache is empty when the rule computes (only
`temp/cold`'s cache was populated by the condition), so the aggregate cache
is empty and `center_of_mass` divides `0.0` by `0.0`.  NaN is not inside
`[0, 50]`. -/
theorem claim6_counterexample :
    computeVal c6Machine = .ok ("action: low", F.nan) ∧
    (F.le (F.num 0) F.nan && F.le F.nan (F.num 50)) = false := by
  constructor
  · with_unfolding_all rfl
  · decide

/-- C6 amended: the end-to-end scenario returns the label `"action: low"`
paired with NaN, the aggregate set's cache being empty. -/
theorem claim6_end_to_end_nan :
    computeVal c6Machine = .ok ("action: low", F.nan) ∧
    aggregateCache ⟨[c6Rule]⟩ opsCenterOfMass [("temp", F.num (-15))]
      [("temp", tempUniverse), ("action", actionUniverse)] = some [] := by
  constructor <;> with_unfolding_all rfl

/-- C7 (corrected): the claim says two consecutive `compute()` calls always
return the same pair.  On `c7Machine` the second rule's condition
(`out is t`) populates the first rule's target cache *after* rule 1 already
read it, so cycle 1 yields crisp value 0 and cycle 2 yields 1. -/
theorem claim7_counterexample :
    computeVal c7Machine = .ok ("out: t", F.num 0) ∧
    computeVal c7Machine1 = .ok ("out: t", F.num 1) := by
  constructor <;> with_unfolding_all rfl

/-- C7 amended: two consecutive `compute()` calls return the same
`(label, crisp value)` pair provided no rule's condition references the
shared result universe `ru` (so target caches cannot change between the
cycles) and the starting caches are consistent — e.g. any machine whose
caches were only ever filled by `check` itself. -/
theorem claim7_idempotence_restricted (m : InferenceMachine) (ru lbl : String)
    (v : F) (m1 : InferenceMachine)
    (hshare : ∀ r ∈ m.rules.rules, r.result_universe = ru)
    (hfree : ∀ r ∈ m.rules.rules, ru ∉ r.condition.vars)
    (hcons : consistentU m.universes)
    (hc : m.compute = .ok ((lbl, v), m1)) :
    computeVal m1 = .ok (lbl, v) := by
  cases hca : m.rules.computeAll m.options m.values m.universes with
  | crash msg => simp [InferenceMachine.compute, hca] at hc
  | ok p =>
    obtain ⟨res, uEnd⟩ := p
    simp [InferenceMachine.compute, hca] at hc
    obtain ⟨⟨hlbl, hv⟩, hm1⟩ := hc
    have hall : ∀ r ∈ m.rules.rules, r.result_universe = ru ∧ ru ∉ r.condition.vars :=
      fun r hr => ⟨hshare r hr, hfree r hr⟩
    have hgood0 : goodU m.universes ru m.universes := ⟨hcons, shapeEqU_refl _, rfl⟩
    obtain ⟨hgend, -⟩ := computeAll_stable m.options m.values hall hgood0 hgood0 hca
    obtain ⟨-, vEnd, hvEnd, -⟩ := computeAll_stable m.options m.values hall hgood0 hgend hca
    subst hm1
    simp [computeVal, InferenceMachine.compute, hvEnd, hlbl, hv]

/-- C7 witness: `c7wMachine`'s only rule conditions on `u`, never on the
result universe `out`, so the second cycle repeats the first cycle's
result. -/
theorem claim7_witness :
    (∀ r ∈ c7wMachine.rules.rules, r.result_universe = "out") ∧
    (∀ r ∈ c7wMachine.rules.rules, "out" ∉ r.condition.vars) ∧
    consistentU c7wMachine.universes ∧
    c7wMachine.compute = .ok (("out: t", F.num 0), c7wMachine1) ∧
    computeVal c7wMachine1 = .ok ("out: t", F.num 0) :=
  ⟨by decide, by decide, consistentU_of_allCachesEmpty (by decide),
   by with_unfolding_all rfl,
   claim7_idempotence_restricted c7wMachine "out" "out: t" (F.num 0) c7wMachine1
     (by decide) (by decide) (consistentU_of_allCachesEmpty (by decide))
     (by with_unfolding_all rfl)⟩

/-- C8 (code_bug): `triangular(a, a, c)` at `x = a` takes the first branch
(`a ≤ x ≤ b` holds with `a = b = x`) and computes `1.0 - (b-x)/(b-a) =
1.0 - 0.0/0.0 = NaN` — for every finite `a` and every `c` — contradicting the
doc example in `functions.rs` (`mem(-15.0); // -> 1.0`) and the claim's
"returns exactly 1.0". -/
theorem claim8_triangular_nan_at_peak (q : Rat) (c : F) :
    triangular (F.num q) (F.num q) c (F.num q) = F.nan ∧
    triangular (F.num (-15)) (F.num (-15)) (F.num 22) (F.num (-15)) = F.nan := by
  constructor
  · simp [triangular, F.le, F.sub, F.add, F.neg, F.div]
  · with_unfolding_all rfl

/-- C9 (confirmed): when a rule's condition never references the rule's
result universe, `Rule::compute` leaves the result universe's registry entry
— in particular the target set and its cache — exactly as it was, and the
returned set is a fresh membership-function-free value holding the filtered
copy of the (unchanged) target cache; being a separate value, later mutation
of it cannot affect the registry. -/
theorem claim9_compute_frame (r : Rule) (ops : InferenceOptions)
    (vals : List (String × F)) (u : Universes) (res : Set) (u2 : Universes)
    (hfree : r.result_universe ∉ r.condition.vars)
    (hc : r.compute ops vals u = .ok (res, u2)) :
    lookupKV r.result_universe u2 = lookupKV r.result_universe u ∧
    res.membership = none ∧
    (∀ uni tset, lookupKV r.result_universe u = some uni →
      lookupKV r.result_set uni.sets = some tset →
      ∃ d, res = ⟨r.result_universe ++ ": " ++ r.result_set, none,
        tset.cache.filter (fun kv => F.le kv.2 d)⟩) := by
  cases he : Expr.eval ops vals r.condition u with
  | crash m => simp [Rule.compute, he] at hc
  | ok pe =>
    obtain ⟨d, ue⟩ := pe
    have hframe := eval_frame ops vals r.condition u d ue he r.result_universe hfree
    cases ht : lookupKV r.result_universe ue with
    | none => simp [Rule.compute, he, ht] at hc
    | some uni =>
      cases hts : lookupKV r.result_set uni.sets with
      | none => simp [Rule.compute, he, ht, hts] at hc
      | some tset =>
        simp [Rule.compute, he, ht, hts] at hc
        obtain ⟨hres, hu2⟩ := hc
        subst hu2
        refine ⟨hframe, ?_, ?_⟩
        · rw [← hres]; rfl
        · intro uni0 tset0 hu0 hts0
          rw [← hframe, ht] at hu0
          injection hu0 with hu0
          subst hu0
          rw [hts] at hts0
          injection hts0 with hts0
          subst hts0
          exact ⟨d, by rw [← hres]; rfl⟩

/-- C9 witness: computing `c9Rule` (condition on `u`, target `out/t` with a
pre-populated cache) leaves the `out` entry untouched and returns the
filtered copy. -/
theorem claim9_witness :
    (c9Rule.result_universe ∉ c9Rule.condition.vars) ∧
    (c9Rule.compute opsTrivial [("u", F.num 0)] c9u = .ok (c9res, c9u2)) ∧
    (lookupKV c9Rule.result_universe c9u2 = lookupKV c9Rule.result_universe c9u ∧
      c9res.membership = none ∧
      (∀ uni tset, lookupKV c9Rule.result_universe c9u = some uni →
        lookupKV c9Rule.result_set uni.sets = some tset →
        ∃ d, c9res = ⟨c9Rule.result_universe ++ ": " ++ c9Rule.result_set, none,
          tset.cache.filter (fun kv => F.le kv.2 d)⟩)) :=
  ⟨by decide, by with_unfolding_all rfl,
   claim9_compute_frame c9Rule opsTrivial [("u", F.num 0)] c9u c9res c9u2
     (by decide) (by with_unfolding_all rfl)⟩

/-- C10 (corrected): the claim says a fresh machine's evaluations fail with
an `UnknownVariable` lookup miss so that `compute()` fails.  The value
snapshot is indeed empty and the variable lookup does miss, but the miss is
Rust's `HashMap`-index panic — the thread unwinds with
`"no entry found for key"`; no `UnknownVariable` failure value is returned. -/
theorem claim10_counterexample :
    computeVal c10Machine = .crash "no entry found for key" := by
  with_unfolding_all rfl

/-- C10 amended: a newly constructed machine has an empty value snapshot, and
`compute()` on any non-empty rule list panics with the `HashMap`-index
message, because every condition expression bottoms out in an `Is` leaf
whose variable lookup misses the empty map. -/
theorem claim10_fresh_machine_panics (rs : RuleSet) (u : Universes)
    (ops : InferenceOptions) (r0 : Rule) (rest : List Rule)
    (hrules : rs.rules = r0 :: rest) :
    (InferenceMachine.new rs u ops).values = [] ∧
    (InferenceMachine.new rs u ops).compute = .crash "no entry found for key" := by
  refine ⟨rfl, ?_⟩
  simp [InferenceMachine.compute, InferenceMachine.new, RuleSet.computeAll, hrules,
    Rule.compute, eval_empty_vals]

/-- C10 witness: a concrete one-rule fresh machine panics on its first
variable lookup. -/
theorem claim10_witness :
    ((⟨[c7r1]⟩ : RuleSet).rules = c7r1 :: []) ∧
    ((InferenceMachine.new ⟨[c7r1]⟩ [] opsTrivial).values = [] ∧
      (InferenceMachine.new ⟨[c7r1]⟩ [] opsTrivial).compute =
        .crash "no entry found for key") :=
  ⟨rfl, claim10_fresh_machine_panics ⟨[c7r1]⟩ [] opsTrivial c7r1 [] rfl⟩

end FuzzyLogic
